import Mathlib

/-!
# ntfy-hey-generator: configuration, worker URLs and the reconnect loop

A verification development for `main.go`.

* Go strings are modelled by the list of their code points (`GoString`); values read from the
  environment are taken to be valid UTF-8.
* Library calls (`strings.TrimSpace`, `strings.Split`, `os.Getenv`, `godotenv.Load`,
  `fmt.Sprintf`, `url.URL.String`) are modelled after their documented behaviour.
* `connect` is modelled as a transition system with one program counter for the goroutine that
  runs `connect` and one for the reader goroutine it starts; the environment (dial results,
  frames, the timer, the cancellation signal, the choice made by a `select` with several ready
  cases) is a schedule of events.
-/

namespace NtfyHey

/-! ## Strings -/

/-- A Go string, as the list of its code points. -/
abbrev GoString := List Char

/-- Go's `unicode.IsSpace`: the code points with the White_Space property. -/
def isSpace (c : Char) : Bool :=
  (9 ≤ c.toNat && c.toNat ≤ 13) || c.toNat == 32 || c.toNat == 0x85 || c.toNat == 0xA0 ||
  c.toNat == 0x1680 || (0x2000 ≤ c.toNat && c.toNat ≤ 0x200A) || c.toNat == 0x2028 ||
  c.toNat == 0x2029 || c.toNat == 0x202F || c.toNat == 0x205F || c.toNat == 0x3000

/-- Go's `strings.TrimSpace`: all leading and trailing white space removed. -/
def TrimSpace (s : GoString) : GoString :=
  (s.dropWhile isSpace).rdropWhile isSpace

/-- Go's `strings.Split(s, sep)` for a separator of one character: the pieces of `s` between
the occurrences of `sep`; one piece more than there are separators, so never the empty list. -/
def Split (s : GoString) (sep : Char) : List GoString :=
  match s with
  | [] => [[]]
  | c :: cs =>
    if c = sep then [] :: Split cs sep
    else
      match Split cs sep with
      | [] => [[c]]
      | p :: ps => (c :: p) :: ps

/-! ## Environment and configuration -/

/-- The process environment: variables and their values. -/
abbrev Environ := List (GoString × GoString)

/-- Go's `os.Getenv`: the value of the variable, the empty string when it is unset. -/
def Getenv (env : Environ) (key : GoString) : GoString :=
  (env.lookup key).getD []

/-- The effect of `godotenv.Load()`. `dotenv` is what reading and parsing the file `.env` gives:
an error, or the variables the file defines. On success the variables of the file are added to
the process environment, and a variable that is already present keeps its value. -/
def godotenvLoad (dotenv : Except GoString Environ) (environ : Environ) :
    Except GoString Environ :=
  match dotenv with
  | .error e => .error e
  | .ok kvs => .ok (environ ++ kvs.filter fun kv => (environ.lookup kv.1).isNone)

/-- The struct `config` (main.go, lines 23-28). -/
structure config where
  Server : GoString
  Port : GoString
  Topics : List GoString
  MP3 : GoString
  deriving DecidableEq, Repr

/-- The closure `get` of `loadConfig` (lines 35-40), with the environment it reads made
explicit. -/
def get (env : Environ) (key fallback : GoString) : GoString :=
  if TrimSpace (Getenv env key) ≠ [] then TrimSpace (Getenv env key) else fallback

/-- The function `loadConfig` (lines 30-56). The result is Go's pair: the config and the error,
`none` standing for `nil`. -/
def loadConfig (dotenv : Except GoString Environ) (environ : Environ) :
    config × Option GoString :=
  match godotenvLoad dotenv environ with
  | .error err =>
    ({ Server := [], Port := [], Topics := [], MP3 := [] },
      some ("failed to load .env: ".toList ++ err))
  | .ok env =>
    let cfg : config :=
      { Server := get env "NTFY_SERVER_URL".toList "ntfy.sh".toList
        Port := get env "NTFY_PORT".toList "80".toList
        Topics := Split (get env "NTFY_TOPICS".toList []) ','
        MP3 := get env "MP3_FILE".toList [] }
    if cfg.Topics.length = 0 ∨ cfg.MP3 = [] then
      (cfg, some "NTFY_TOPICS and MP3_FILE must be defined".toList)
    else
      ({ cfg with Topics := cfg.Topics.map TrimSpace }, none)

/-! ## Worker URLs -/

/-- The fields of `url.URL` that `main` sets; every other field keeps its zero value. -/
structure URL where
  Scheme : GoString
  Host : GoString
  Path : GoString
  deriving DecidableEq, Repr

/-- The two escaping modes of `net/url` that `URL.String` uses for a URL with scheme, host and
path only. -/
inductive encoding
  | encodePath
  | encodeHost
  deriving DecidableEq, Repr

/-- The UTF-8 encoding of a code point, as the list of its bytes. -/
def utf8Bytes (c : Char) : List Nat :=
  if c.toNat < 0x80 then [c.toNat]
  else if c.toNat < 0x800 then [0xC0 + c.toNat / 64, 0x80 + c.toNat % 64]
  else if c.toNat < 0x10000 then
    [0xE0 + c.toNat / 4096, 0x80 + c.toNat / 64 % 64, 0x80 + c.toNat % 64]
  else
    [0xF0 + c.toNat / 262144, 0x80 + c.toNat / 4096 % 64, 0x80 + c.toNat / 64 % 64,
      0x80 + c.toNat % 64]

/-- The function `shouldEscape` of `net/url` on a byte, for the modes `encodePath` and
`encodeHost`. -/
def shouldEscape (c : Nat) (mode : encoding) : Bool :=
  if (97 ≤ c ∧ c ≤ 122) ∨ (65 ≤ c ∧ c ≤ 90) ∨ (48 ≤ c ∧ c ≤ 57) then false
  else if mode = .encodeHost ∧
      c ∈ [33, 36, 38, 39, 40, 41, 42, 43, 44, 59, 61, 58, 91, 93, 60, 62, 34] then false
  else if c ∈ [45, 95, 46, 126] then false
  else if c ∈ [36, 38, 43, 44, 47, 58, 59, 61, 63, 64] ∧ mode = .encodePath then c = 63
  else true

/-- Whether `escape` rewrites the code point: one of its bytes is selected by `shouldEscape`. -/
def needsEscape (c : Char) (mode : encoding) : Bool :=
  (utf8Bytes c).any fun b => shouldEscape b mode

/-- The upper-case hexadecimal digit of a number below 16. -/
def upperhex (n : Nat) : Char :=
  if n < 10 then Char.ofNat (48 + n) else Char.ofNat (55 + n)

/-- The function `escape` of `net/url`: every byte that `shouldEscape` selects becomes `%XX`. -/
def escape (s : GoString) (mode : encoding) : GoString :=
  (s.flatMap utf8Bytes).flatMap fun b =>
    if shouldEscape b mode then ['%', upperhex (b / 16), upperhex (b % 16)] else [Char.ofNat b]

/-- The method `EscapedPath` of `url.URL`, for a URL whose `RawPath` is empty. -/
def URL.EscapedPath (u : URL) : GoString :=
  if u.Path = ['*'] then ['*'] else escape u.Path .encodePath

/-- The method `String` of `url.URL`, for a URL whose fields other than scheme, host and path
are zero. -/
def URL.String (u : URL) : GoString :=
  let buf : GoString := if u.Scheme ≠ [] then u.Scheme ++ [':'] else []
  let buf : GoString :=
    if u.Scheme ≠ [] ∨ u.Host ≠ [] then
      (if u.Host ≠ [] ∨ u.Path ≠ [] then buf ++ "//".toList else buf) ++
        (if u.Host ≠ [] then escape u.Host .encodeHost else [])
    else buf
  let path := u.EscapedPath
  let buf : GoString :=
    if path ≠ [] ∧ path.head? ≠ some '/' ∧ u.Host ≠ [] then buf ++ ['/'] else buf
  let buf : GoString :=
    if buf = [] ∧ ':' ∈ path.takeWhile (· ≠ '/') then "./".toList else buf
  buf ++ path

/-- One worker goroutine started by `main`: its topic and the URL it passes to `connect`. -/
structure Worker where
  tp : GoString
  u : URL
  deriving DecidableEq, Repr

/-- The URL built in the goroutine of `main` (lines 159-163): `fmt.Sprintf("%s:%s", …)` and
`fmt.Sprintf("/%s/ws", …)` are concatenations. -/
def workerURL (Server Port tp : GoString) : URL :=
  { Scheme := "ws".toList
    Host := Server ++ ":".toList ++ Port
    Path := "/".toList ++ tp ++ "/ws".toList }

/-- The loop of `main` over `cfg.Topics` (lines 152-166): the workers it starts, in order. -/
def spawn (cfg : config) : List Worker :=
  (cfg.Topics.filter (· ≠ [])).map fun tp =>
    { tp := tp, u := workerURL cfg.Server cfg.Port tp }

/-- What `main` needs from outside the program. -/
structure World where
  /-- The result of reading and parsing `.env`. -/
  dotenv : Except GoString Environ
  /-- The process environment at start. -/
  environ : Environ
  /-- The error of `prepareAudio` for a clip path, `none` when the clip decodes. -/
  prepareAudio : GoString → Option GoString
  /-- The error of `speaker.Init`, `none` when the device opens. -/
  speakerInit : Option GoString

/-- The function `main` up to the start of the workers (lines 122-166): the fatal error it logs,
or the workers it starts. -/
def main (w : World) : Except GoString (List Worker) :=
  match loadConfig w.dotenv w.environ with
  | (_, some err) => .error err
  | (cfg, none) =>
    match w.prepareAudio cfg.MP3 with
    | some err => .error err
    | none =>
      match w.speakerInit with
      | some err => .error err
      | none => .ok (spawn cfg)

/-- A start with the topic list of the specification's example, `a, ,b,`. -/
def exampleWorld : World :=
  { dotenv := .ok [("MP3_FILE".toList, "bell.mp3".toList)]
    environ := [("NTFY_TOPICS".toList, "a, ,b,".toList)]
    prepareAudio := fun _ => none
    speakerInit := none }

/-! ## The reconnect loop `connect` -/

/-- Go's `time.Second`, in nanoseconds. -/
def Second : Nat := 1000000000

/-- The duration `5 * time.Second` of the timer of line 88. -/
def backoffDelay : Nat := 5 * Second

/-- A frame as `ReadMessage` returns it: message type and payload. -/
structure Frame where
  messageType : Int
  p : List Nat
  deriving DecidableEq, Repr

/-- The case of the select of lines 110-118 that calls `c.Close()`. -/
inductive Branch
  | cancel
  | readerExit
  deriving DecidableEq, Repr

/-- What `connect` and its reader goroutine do, as seen from outside. -/
inductive Action
  /-- Line 84: `Dial` is called. -/
  | dial
  /-- Line 84: `Dial` has returned, with `err == nil` or not. -/
  | dialed (ok : Bool)
  /-- Line 88: the channel of `time.After(d)` has delivered, `d` nanoseconds or more after the
  select was entered. -/
  | wait (d : Nat)
  /-- Line 101: `ReadMessage` has returned, a frame or (`none`) an error. -/
  | recv (r : Option Frame)
  /-- Line 105: `play()` is called. -/
  | play
  /-- Lines 112 and 116: `c.Close()` is called. -/
  | close (branch : Branch)
  /-- Lines 81, 91 and 114: `connect` returns. -/
  | ret
  deriving DecidableEq, Repr

/-- Where the goroutine running `connect` stands. -/
inductive MainPc
  /-- Line 80, the head of the loop. -/
  | top
  /-- Line 84, inside `Dial`. -/
  | dialing
  /-- Line 87, the select on the timer and `ctx.Done()`. -/
  | backoff
  /-- Line 110, the select on `ctx.Done()` and `done`. -/
  | waiting
  /-- Line 113, the receive from `done` after the cancellation branch has closed the socket. -/
  | joining
  /-- After `return`. -/
  | returned
  deriving DecidableEq, Repr

/-- Where the reader goroutine of lines 98-107 stands. -/
inductive ReaderPc
  /-- No reader has been started yet. -/
  | absent
  /-- Line 101, inside `ReadMessage`. -/
  | reading
  /-- Line 105, a frame was read and `play()` is next. -/
  | playing
  /-- The reader has returned and `done` is closed. -/
  | exited
  deriving DecidableEq, Repr

/-- The state of one call of `connect`. -/
structure State where
  pc : MainPc
  reader : ReaderPc
  /-- Whether `ctx` is cancelled. -/
  cancelled : Bool
  /-- The actions so far, the most recent first. -/
  log : List Action
  deriving DecidableEq, Repr

/-- The actions so far in the order in which they happened. -/
def State.trace (s : State) : List Action := s.log.reverse

/-- What the environment and the scheduler decide. -/
inductive Event
  /-- The signal arrives: `ctx` becomes cancelled. -/
  | cancel
  /-- Line 80 runs: `ctx.Err()` is inspected. -/
  | check
  /-- `Dial` returns. -/
  | dialed (ok : Bool)
  /-- The select of line 87 takes the timer case. -/
  | timer
  /-- A select takes the case `<-ctx.Done()` (line 90 or 111). -/
  | ctxDone
  /-- A receive from `done` completes (line 113 or 115). -/
  | done
  /-- `ReadMessage` returns in the reader. -/
  | read (r : Option Frame)
  /-- The reader calls `play()`. -/
  | play
  deriving DecidableEq, Repr

/-- One step of `connect` or of its reader; `none` when the event cannot happen in the state. -/
def step (s : State) : Event → Option State
  | .cancel => some { s with cancelled := true }
  | .check =>
    match s.pc with
    | .top =>
      if s.cancelled then some { s with pc := .returned, log := .ret :: s.log }
      else some { s with pc := .dialing, log := .dial :: s.log }
    | _ => none
  | .dialed ok =>
    match s.pc with
    | .dialing =>
      if ok then
        some { s with pc := .waiting, reader := .reading, log := .dialed true :: s.log }
      else some { s with pc := .backoff, log := .dialed false :: s.log }
    | _ => none
  | .timer =>
    match s.pc with
    | .backoff => some { s with pc := .top, log := .wait backoffDelay :: s.log }
    | _ => none
  | .ctxDone =>
    if s.cancelled then
      match s.pc with
      | .backoff => some { s with pc := .returned, log := .ret :: s.log }
      | .waiting => some { s with pc := .joining, log := .close .cancel :: s.log }
      | _ => none
    else none
  | .done =>
    match s.reader, s.pc with
    | .exited, .waiting => some { s with pc := .top, log := .close .readerExit :: s.log }
    | .exited, .joining => some { s with pc := .returned, log := .ret :: s.log }
    | _, _ => none
  | .read r =>
    match s.reader with
    | .reading =>
      match r with
      | some f => some { s with reader := .playing, log := .recv (some f) :: s.log }
      | none => some { s with reader := .exited, log := .recv none :: s.log }
    | _ => none
  | .play =>
    match s.reader with
    | .playing => some { s with reader := .reading, log := .play :: s.log }
    | _ => none

/-- The state after a schedule of events; `none` when one of them cannot happen. -/
def run (s : State) : List Event → Option State
  | [] => some s
  | e :: es => (step s e).bind fun s' => run s' es

/-- The state in which `connect` is entered. -/
def init : State := { pc := .top, reader := .absent, cancelled := false, log := [] }


/-! ## Properties of runs -/

/-- Facts about the two program counters that hold throughout a call of `connect`: the reader
runs only while `connect` is at the select of line 110 or at the receive of line 113; these
two lines after the cancellation branch, and the return, are reached only with `ctx`
cancelled; right after a failed dial `connect` is at the select of line 87; right after a read
error the reader has exited and `connect` is at line 110 or 113. -/
def Inv (s : State) : Prop :=
  (s.reader = .reading ∨ s.reader = .playing → s.pc = .waiting ∨ s.pc = .joining) ∧
  (s.pc = .joining ∨ s.pc = .returned → s.cancelled = true) ∧
  (s.log.head? = some (.dialed false) → s.pc = .backoff) ∧
  (s.log.head? = some (.recv none) → s.reader = .exited ∧ (s.pc = .waiting ∨ s.pc = .joining))

/-- The life of the socket along the actions of `connect`: `true` while a socket is open.
`none` when a socket is opened while one is open, when `Close` is called with no socket open
(so also when it is called a second time), or when `connect` dials or returns with a socket
open. -/
def sockStep : Bool → Action → Option Bool
  | false, .dialed true => some true
  | true, .dialed true => none
  | true, .close _ => some false
  | false, .close _ => none
  | true, .dial => none
  | true, .ret => none
  | st, _ => some st

/-- The state of the socket after a sequence of actions, oldest first. -/
def sockRun (st : Bool) : List Action → Option Bool
  | [] => some st
  | a :: rest => (sockStep st a).bind fun st' => sockRun st' rest

/-- The actions of the reader goroutine. -/
def isReaderAction : Action → Bool
  | .recv _ => true
  | .play => true
  | _ => false

/-- What the reader of the most recent connection has done, oldest first. -/
def readerTrace (s : State) : List Action :=
  ((s.log.takeWhile fun a => decide (a ≠ .dialed true)).filter isReaderAction).reverse

/-- Each frame read, followed by one call of `play`. -/
def readThenPlay (frames : List Frame) : List Action :=
  frames.flatMap fun f => [.recv (some f), .play]

/-- The reader's trace within one connection: pairs of a frame read and a `play`, then nothing
while it waits in `ReadMessage`, the frame just read while it is about to play, and the read
error once it has exited. -/
def ReaderShape (r : ReaderPc) (t : List Action) : Prop :=
  ∃ frames : List Frame,
    (r = .absent ∧ t = []) ∨
    (r = .reading ∧ t = readThenPlay frames) ∨
    (∃ f, r = .playing ∧ t = readThenPlay frames ++ [.recv (some f)]) ∨
    (r = .exited ∧ t = readThenPlay frames ++ [.recv none])

/-- The time spent in completed timer waits, in nanoseconds. -/
def waited : List Action → Nat
  | [] => 0
  | .wait d :: rest => d + waited rest
  | _ :: rest => waited rest

/-- The actions logged since the most recent dial, for a log with the most recent action
first. -/
def sinceDial (log : List Action) : List Action :=
  log.takeWhile fun a => decide (a ≠ .dial)

/-- What holds of the actions between a failed dial and the next dial: the timer waits between
them add up to the backoff delay or more. -/
def GapOk (mid : List Action) : Prop :=
  .dialed false ∈ mid → backoffDelay ≤ waited mid

/-- Every dial of the log (most recent action first) comes after a gap that is `GapOk`. -/
def Spaced : List Action → Prop
  | [] => True
  | a :: older => (a = .dial → GapOk (sinceDial older)) ∧ Spaced older

/-- What holds of the actions since the most recent dial, by the line `connect` stands at. -/
def GapAt : MainPc → List Action → Prop
  | .top, mid => GapOk mid
  | .dialing, mid => .dialed false ∉ mid
  | .backoff, _ => True
  | .waiting, mid => .dialed false ∉ mid
  | .joining, mid => .dialed false ∉ mid
  | .returned, _ => True

/-! ## Strings: trimming and splitting -/

theorem Split_ne_nil (s : GoString) (sep : Char) : Split s sep ≠ [] := by
  induction s with
  | nil => simp [Split]
  | cons c cs ih =>
    unfold Split
    split
    · simp
    · split <;> simp

theorem isSpace_ne_comma {c : Char} (h : isSpace c = true) : c ≠ ',' := by
  rintro rfl
  revert h
  decide

theorem TrimSpace_cons_space {c : Char} (h : isSpace c = true) (p : GoString) :
    TrimSpace (c :: p) = TrimSpace p := by
  simp [TrimSpace, List.dropWhile, h]

theorem TrimSpace_concat_space {x : Char} (h : isSpace x = true) (p : GoString) :
    TrimSpace (p ++ [x]) = TrimSpace p := by
  induction p with
  | nil => simp [TrimSpace, List.dropWhile, h]
  | cons c cs ih =>
    by_cases hc : isSpace c = true
    · rw [List.cons_append, TrimSpace_cons_space hc, TrimSpace_cons_space hc, ih]
    · have h1 : List.dropWhile isSpace (c :: cs ++ [x]) = (c :: cs) ++ [x] := by
        simp [List.dropWhile, hc]
      have h2 : List.dropWhile isSpace (c :: cs) = c :: cs := by
        simp [List.dropWhile, hc]
      unfold TrimSpace
      rw [h1, h2, List.rdropWhile_concat_pos _ _ _ h]

theorem TrimSpace_eq_nil_iff (v : GoString) : TrimSpace v = [] ↔ v.all isSpace = true := by
  induction v with
  | nil => simp [TrimSpace]
  | cons c cs ih =>
    by_cases hc : isSpace c = true
    · rw [TrimSpace_cons_space hc, ih]
      simp [hc]
    · have h2 : List.dropWhile isSpace (c :: cs) = c :: cs := by
        simp [List.dropWhile, hc]
      unfold TrimSpace
      rw [h2, List.rdropWhile_eq_nil_iff]
      simp [hc]


theorem Split_cons_space {c : Char} (h : isSpace c = true) (cs : GoString) :
    (Split (c :: cs) ',').map TrimSpace = (Split cs ',').map TrimSpace := by
  have hne := Split_ne_nil cs ','
  rw [Split, if_neg (isSpace_ne_comma h)]
  cases hs : Split cs ',' with
  | nil => exact absurd hs hne
  | cons p ps => simp [TrimSpace_cons_space h]

theorem Split_dropWhile (v : GoString) :
    (Split (v.dropWhile isSpace) ',').map TrimSpace = (Split v ',').map TrimSpace := by
  induction v with
  | nil => rfl
  | cons c cs ih =>
    by_cases hc : isSpace c = true
    · rw [List.dropWhile_cons_of_pos hc, ih, Split_cons_space hc]
    · rw [List.dropWhile_cons_of_neg hc]

theorem Split_concat {x sep : Char} (hx : x ≠ sep) (l : GoString) :
    ∃ ps p, Split l sep = ps ++ [p] ∧ Split (l ++ [x]) sep = ps ++ [p ++ [x]] := by
  induction l with
  | nil => exact ⟨[], [], by simp [Split], by simp [Split, hx]⟩
  | cons c cs ih =>
    obtain ⟨ps, p, h1, h2⟩ := ih
    by_cases hc : c = sep
    · exact ⟨[] :: ps, p, by simp [Split, hc, h1], by simp [Split, hc, h2]⟩
    · cases ps with
      | nil => exact ⟨[], c :: p, by simp [Split, hc, h1], by simp [Split, hc, h2]⟩
      | cons q qs =>
        exact ⟨(c :: q) :: qs, p, by simp [Split, hc, h1], by simp [Split, hc, h2]⟩

theorem Split_concat_space {x : Char} (h : isSpace x = true) (l : GoString) :
    (Split (l ++ [x]) ',').map TrimSpace = (Split l ',').map TrimSpace := by
  obtain ⟨ps, p, h1, h2⟩ := Split_concat (isSpace_ne_comma h) l
  rw [h1, h2]
  simp [TrimSpace_concat_space h]

theorem Split_rdropWhile (v : GoString) :
    (Split (v.rdropWhile isSpace) ',').map TrimSpace = (Split v ',').map TrimSpace := by
  induction v using List.reverseRecOn with
  | nil => rfl
  | append_singleton l x ih =>
    by_cases hx : isSpace x = true
    · rw [List.rdropWhile_concat_pos _ _ _ hx, ih, Split_concat_space hx]
    · rw [List.rdropWhile_concat_neg _ _ _ hx]

/-- Trimming the whole value before splitting it changes no trimmed element. -/
theorem Split_TrimSpace (v : GoString) :
    (Split (TrimSpace v) ',').map TrimSpace = (Split v ',').map TrimSpace := by
  have h : TrimSpace v = (v.dropWhile isSpace).rdropWhile isSpace := rfl
  rw [h, Split_rdropWhile, Split_dropWhile]

theorem get_nil (env : Environ) (key : GoString) : get env key [] = TrimSpace (Getenv env key) := by
  unfold get
  split
  · rfl
  · rename_i h
    simp at h
    exact h.symm


/-! ## `loadConfig` and `main` -/

/-- The result of `loadConfig` once `.env` has loaded: the topic list is never empty, so only
an empty clip path gives an error. -/
theorem loadConfig_of_loaded {dotenv : Except GoString Environ} {environ env : Environ}
    (h : godotenvLoad dotenv environ = .ok env) :
    loadConfig dotenv environ =
      if get env "MP3_FILE".toList [] = [] then
        ({ Server := get env "NTFY_SERVER_URL".toList "ntfy.sh".toList
           Port := get env "NTFY_PORT".toList "80".toList
           Topics := Split (get env "NTFY_TOPICS".toList []) ','
           MP3 := get env "MP3_FILE".toList [] },
          some "NTFY_TOPICS and MP3_FILE must be defined".toList)
      else
        ({ Server := get env "NTFY_SERVER_URL".toList "ntfy.sh".toList
           Port := get env "NTFY_PORT".toList "80".toList
           Topics := (Split (get env "NTFY_TOPICS".toList []) ',').map TrimSpace
           MP3 := get env "MP3_FILE".toList [] }, none) := by
  unfold loadConfig
  rw [h]
  simp only [List.length_eq_zero, Split_ne_nil, false_or]

theorem get_of_blank {env : Environ} {key : GoString} (fallback : GoString)
    (h : (Getenv env key).all isSpace = true) : get env key fallback = fallback := by
  unfold get
  rw [if_neg]
  rw [not_not, TrimSpace_eq_nil_iff]
  exact h

theorem get_of_not_blank {env : Environ} {key : GoString} (fallback : GoString)
    (h : ¬ (Getenv env key).all isSpace = true) :
    get env key fallback = TrimSpace (Getenv env key) := by
  unfold get
  rw [if_pos]
  rw [Ne, TrimSpace_eq_nil_iff]
  exact h

theorem Getenv_blank_of_unset {env : Environ} {key : GoString}
    (h : env.lookup key = none ∨ Getenv env key = [] ∨ (Getenv env key).all isSpace = true) :
    (Getenv env key).all isSpace = true := by
  rcases h with h | h | h
  · simp [Getenv, h]
  · simp [h]
  · exact h

theorem loadConfig_dotenv_error_eq (err : GoString) (environ : Environ) :
    loadConfig (.error err) environ =
      ({ Server := [], Port := [], Topics := [], MP3 := [] },
        some ("failed to load .env: ".toList ++ err)) := rfl

/-- C10: when loading `.env` fails, `loadConfig` returns the zero config and an error, whatever
the process environment holds. -/
theorem loadConfig_dotenv_error (err : GoString) (environ : Environ) :
    loadConfig (.error err) environ =
      ({ Server := [], Port := [], Topics := [], MP3 := [] },
        some ("failed to load .env: ".toList ++ err)) := rfl

/-- C7: once `.env` has loaded, `Server` is the trimmed value of `NTFY_SERVER_URL`, or
`ntfy.sh` when the variable is unset, empty or white space only, and `Port` is the trimmed value
of `NTFY_PORT`, or `80` when that variable is unset, empty or white space only. -/
theorem loadConfig_server_port (dotenv : Except GoString Environ) (environ env : Environ)
    (h : godotenvLoad dotenv environ = .ok env) :
    ((env.lookup "NTFY_SERVER_URL".toList = none ∨ Getenv env "NTFY_SERVER_URL".toList = [] ∨
        (Getenv env "NTFY_SERVER_URL".toList).all isSpace = true) →
      (loadConfig dotenv environ).1.Server = "ntfy.sh".toList) ∧
    (¬ (Getenv env "NTFY_SERVER_URL".toList).all isSpace = true →
      (loadConfig dotenv environ).1.Server = TrimSpace (Getenv env "NTFY_SERVER_URL".toList)) ∧
    ((env.lookup "NTFY_PORT".toList = none ∨ Getenv env "NTFY_PORT".toList = [] ∨
        (Getenv env "NTFY_PORT".toList).all isSpace = true) →
      (loadConfig dotenv environ).1.Port = "80".toList) ∧
    (¬ (Getenv env "NTFY_PORT".toList).all isSpace = true →
      (loadConfig dotenv environ).1.Port = TrimSpace (Getenv env "NTFY_PORT".toList)) := by
  have hs : (loadConfig dotenv environ).1.Server =
      get env "NTFY_SERVER_URL".toList "ntfy.sh".toList := by
    rw [loadConfig_of_loaded h]; split <;> rfl
  have hp : (loadConfig dotenv environ).1.Port = get env "NTFY_PORT".toList "80".toList := by
    rw [loadConfig_of_loaded h]; split <;> rfl
  rw [hs, hp]
  exact ⟨fun hb => get_of_blank _ (Getenv_blank_of_unset hb), fun hb => get_of_not_blank _ hb,
    fun hb => get_of_blank _ (Getenv_blank_of_unset hb), fun hb => get_of_not_blank _ hb⟩

/-- C7 at a concrete environment: `NTFY_SERVER_URL` is blank and `.env` sets `NTFY_PORT`. -/
theorem loadConfig_server_port_witness :
    (loadConfig (.ok [("NTFY_PORT".toList, " 8080 ".toList)])
        [("NTFY_SERVER_URL".toList, "  ".toList)]).1.Server = "ntfy.sh".toList ∧
    (loadConfig (.ok [("NTFY_PORT".toList, " 8080 ".toList)])
        [("NTFY_SERVER_URL".toList, "  ".toList)]).1.Port = "8080".toList :=
  have h := loadConfig_server_port (.ok [("NTFY_PORT".toList, " 8080 ".toList)])
    [("NTFY_SERVER_URL".toList, "  ".toList)]
    [("NTFY_SERVER_URL".toList, "  ".toList), ("NTFY_PORT".toList, " 8080 ".toList)] rfl
  ⟨h.1 (by decide), (h.2.2.2 (by decide)).trans (by decide)⟩

/-- C2 (the code at the failing input): with `.env` loaded, `MP3_FILE` set and `NTFY_TOPICS`
unset, `loadConfig` returns no error; its topic list is the one-element list of the empty
string, and `main` starts no worker for it. -/
theorem loadConfig_unset_topics_no_error :
    loadConfig (.ok []) [("MP3_FILE".toList, "bell.mp3".toList)] =
      ({ Server := "ntfy.sh".toList, Port := "80".toList, Topics := [[]],
         MP3 := "bell.mp3".toList }, none) ∧
    spawn (loadConfig (.ok []) [("MP3_FILE".toList, "bell.mp3".toList)]).1 = [] := by
  decide


theorem spawn_map_tp (cfg : config) : (spawn cfg).map Worker.tp = cfg.Topics.filter (· ≠ []) := by
  simp [spawn, Function.comp_def]

/-- C3: whenever `.env` loads, `MP3_FILE` is not blank, the clip decodes and the speaker opens,
`main` reaches its loop and starts exactly one worker for each comma-separated element of the
value of `NTFY_TOPICS` that is not empty once trimmed, with the trimmed element as topic, in
the order of the elements and with their multiplicity; for the value `a, ,b,` these are the two
workers `a` and `b`. -/
theorem main_workers_topics (w : World) (env : Environ)
    (hload : godotenvLoad w.dotenv w.environ = .ok env)
    (hmp3 : ¬ (Getenv env "MP3_FILE".toList).all isSpace = true)
    (haudio : w.prepareAudio (TrimSpace (Getenv env "MP3_FILE".toList)) = none)
    (hspeaker : w.speakerInit = none) :
    main w =
        .ok ((((Split (Getenv env "NTFY_TOPICS".toList) ',').map TrimSpace).filter (· ≠ [])).map
          fun tp =>
            { tp := tp
              u := workerURL (get env "NTFY_SERVER_URL".toList "ntfy.sh".toList)
                (get env "NTFY_PORT".toList "80".toList) tp }) ∧
      (Getenv env "NTFY_TOPICS".toList = "a, ,b,".toList →
        ∃ workers, main w = .ok workers ∧ workers.map Worker.tp = ["a".toList, "b".toList]) := by
  have hm : get env "MP3_FILE".toList [] = TrimSpace (Getenv env "MP3_FILE".toList) :=
    get_nil env _
  have hne : ¬ get env "MP3_FILE".toList [] = [] := by
    rw [hm, TrimSpace_eq_nil_iff]
    exact hmp3
  have key : main w =
      .ok ((((Split (Getenv env "NTFY_TOPICS".toList) ',').map TrimSpace).filter (· ≠ [])).map
        fun tp =>
          { tp := tp
            u := workerURL (get env "NTFY_SERVER_URL".toList "ntfy.sh".toList)
              (get env "NTFY_PORT".toList "80".toList) tp }) := by
    unfold main
    rw [loadConfig_of_loaded hload, if_neg hne]
    simp only [hm, haudio, hspeaker]
    unfold spawn
    simp only [get_nil, Split_TrimSpace]
  refine ⟨key, fun hv => ⟨_, key, ?_⟩⟩
  rw [hv]
  rfl

/-- C3 at the topic list `a, ,b,`: `main` starts the two workers `a` and `b`. -/
theorem main_workers_topics_witness :
    godotenvLoad exampleWorld.dotenv exampleWorld.environ =
        .ok [("NTFY_TOPICS".toList, "a, ,b,".toList), ("MP3_FILE".toList, "bell.mp3".toList)] ∧
      main exampleWorld =
        .ok [⟨"a".toList, workerURL "ntfy.sh".toList "80".toList "a".toList⟩,
          ⟨"b".toList, workerURL "ntfy.sh".toList "80".toList "b".toList⟩] :=
  ⟨rfl,
    (main_workers_topics exampleWorld
      [("NTFY_TOPICS".toList, "a, ,b,".toList), ("MP3_FILE".toList, "bell.mp3".toList)]
      rfl (by decide) rfl rfl).1.trans rfl⟩

/-- Whenever `.env` fails to load, `MP3_FILE` is blank, the clip does not decode or the speaker
does not open, `main` stops with the error and starts no worker. -/
theorem main_fatal (w : World) :
    (∀ err, w.dotenv = .error err → ∃ e, main w = .error e) ∧
    (∀ env, godotenvLoad w.dotenv w.environ = .ok env →
      ((Getenv env "MP3_FILE".toList).all isSpace = true → ∃ e, main w = .error e) ∧
      (¬ (Getenv env "MP3_FILE".toList).all isSpace = true →
        (∀ e, w.prepareAudio (TrimSpace (Getenv env "MP3_FILE".toList)) = some e →
          main w = .error e) ∧
        (w.prepareAudio (TrimSpace (Getenv env "MP3_FILE".toList)) = none →
          ∀ e, w.speakerInit = some e → main w = .error e))) := by
  refine ⟨fun err herr => ?_, fun env hload => ⟨fun hb => ?_, fun hb => ?_⟩⟩
  · refine ⟨"failed to load .env: ".toList ++ err, ?_⟩
    unfold main
    rw [herr, loadConfig_dotenv_error_eq]
  · have hm : get env "MP3_FILE".toList [] = [] := get_of_blank _ hb
    refine ⟨"NTFY_TOPICS and MP3_FILE must be defined".toList, ?_⟩
    unfold main
    rw [loadConfig_of_loaded hload, if_pos hm]
  · have hm : get env "MP3_FILE".toList [] = TrimSpace (Getenv env "MP3_FILE".toList) :=
      get_nil env _
    have hne : ¬ get env "MP3_FILE".toList [] = [] := by
      rw [hm, TrimSpace_eq_nil_iff]
      exact hb
    refine ⟨fun e he => ?_, fun hnone e he => ?_⟩
    · unfold main
      rw [loadConfig_of_loaded hload, if_neg hne]
      simp only [hm, he]
    · unfold main
      rw [loadConfig_of_loaded hload, if_neg hne]
      simp only [hm, hnone, he]

/-! ## Worker URLs -/

theorem shouldEscape_of_ge {b : Nat} (h : 128 ≤ b) (mode : encoding) :
    shouldEscape b mode = true := by
  unfold shouldEscape
  have h1 : ¬ ((97 ≤ b ∧ b ≤ 122) ∨ (65 ≤ b ∧ b ≤ 90) ∨ (48 ≤ b ∧ b ≤ 57)) := by omega
  have h2 : b ∉ [33, 36, 38, 39, 40, 41, 42, 43, 44, 59, 61, 58, 91, 93, 60, 62, 34] := by
    simp; omega
  have h3 : b ∉ [45, 95, 46, 126] := by simp; omega
  have h4 : b ∉ [36, 38, 43, 44, 47, 58, 59, 61, 63, 64] := by simp; omega
  simp [h1, h2, h3, h4]

theorem toNat_lt_of_not_needsEscape {c : Char} {mode : encoding}
    (h : needsEscape c mode = false) : c.toNat < 128 := by
  by_contra hc
  have hge : 128 ≤ c.toNat := by omega
  have : needsEscape c mode = true := by
    unfold needsEscape utf8Bytes
    rw [if_neg (by omega)]
    split
    · simp [shouldEscape_of_ge (show 128 ≤ 0xC0 + c.toNat / 64 by omega)]
    · split
      · simp [shouldEscape_of_ge (show 128 ≤ 0xE0 + c.toNat / 4096 by omega)]
      · simp [shouldEscape_of_ge (show 128 ≤ 0xF0 + c.toNat / 262144 by omega)]
  rw [h] at this
  exact Bool.noConfusion this

theorem escape_cons (c : Char) (cs : GoString) (mode : encoding) :
    escape (c :: cs) mode =
      ((utf8Bytes c).flatMap fun b =>
        if shouldEscape b mode then ['%', upperhex (b / 16), upperhex (b % 16)]
        else [Char.ofNat b]) ++ escape cs mode := by
  simp [escape, List.flatMap_append]

theorem escape_eq_self {s : GoString} {mode : encoding}
    (h : ∀ c ∈ s, needsEscape c mode = false) : escape s mode = s := by
  induction s with
  | nil => rfl
  | cons c cs ih =>
    have hc := h c (List.mem_cons_self _ _)
    have hlt := toNat_lt_of_not_needsEscape hc
    have hb : utf8Bytes c = [c.toNat] := by
      unfold utf8Bytes
      rw [if_pos hlt]
    have hs : shouldEscape c.toNat mode = false := by
      simpa [needsEscape, hb] using hc
    rw [escape_cons, ih fun d hd => h d (List.mem_cons_of_mem _ hd), hb]
    simp [hs, Char.ofNat_toNat]


theorem String_workerURL {Server Port tp : GoString}
    (hh : ∀ c ∈ Server ++ Port, needsEscape c .encodeHost = false)
    (ht : ∀ c ∈ tp, needsEscape c .encodePath = false) :
    (workerURL Server Port tp).String =
      "ws://".toList ++ Server ++ ":".toList ++ Port ++ "/".toList ++ tp ++ "/ws".toList := by
  have hhost : escape (Server ++ ":".toList ++ Port) .encodeHost =
      Server ++ ":".toList ++ Port := by
    apply escape_eq_self
    intro c hc
    simp only [List.mem_append] at hc hh
    rcases hc with (hc | hc) | hc
    · exact hh c (Or.inl hc)
    · have : c = ':' := by simpa using hc
      subst this
      decide
    · exact hh c (Or.inr hc)
  have hpath : escape ("/".toList ++ tp ++ "/ws".toList) .encodePath =
      "/".toList ++ tp ++ "/ws".toList := by
    apply escape_eq_self
    intro c hc
    simp only [List.mem_append] at hc
    rcases hc with (hc | hc) | hc
    · have : c = '/' := by simpa using hc
      subst this
      decide
    · exact ht c hc
    · have : c = '/' ∨ c = 'w' ∨ c = 's' := by simpa using hc
      rcases this with rfl | rfl | rfl <;> decide
  have hstar : ("/".toList ++ tp ++ "/ws".toList : GoString) ≠ ['*'] := by
    intro h
    have := congrArg List.head? h
    revert this
    simp
  unfold URL.String URL.EscapedPath workerURL
  simp only [if_neg hstar, hhost, hpath]
  simp

/-- C8 (amended): every worker that `main` starts has a non-empty topic of the config and a URL
with scheme `ws`, host `<server>:<port>` and path `/<topic>/ws`; when no character of the
server, the port and the topic needs URL escaping, the string form of the URL is
`ws://<server>:<port>/<topic>/ws`. -/
theorem spawn_worker_url (cfg : config) (wk : Worker) (h : wk ∈ spawn cfg) :
    wk.tp ∈ cfg.Topics ∧ wk.tp ≠ [] ∧
      wk.u.Scheme = "ws".toList ∧
      wk.u.Host = cfg.Server ++ ":".toList ++ cfg.Port ∧
      wk.u.Path = "/".toList ++ wk.tp ++ "/ws".toList ∧
      ((∀ c ∈ cfg.Server ++ cfg.Port, needsEscape c .encodeHost = false) →
        (∀ c ∈ wk.tp, needsEscape c .encodePath = false) →
        wk.u.String =
          "ws://".toList ++ cfg.Server ++ ":".toList ++ cfg.Port ++ "/".toList ++ wk.tp ++
            "/ws".toList) := by
  unfold spawn at h
  rw [List.mem_map] at h
  obtain ⟨tp, htp, rfl⟩ := h
  rw [List.mem_filter] at htp
  refine ⟨htp.1, by simpa using htp.2, rfl, rfl, rfl, fun hh ht => String_workerURL hh ht⟩

/-- C8 at the server `ntfy.sh`, port `80` and topic `doorbell`. -/
theorem spawn_worker_url_witness :
    (⟨"doorbell".toList, workerURL "ntfy.sh".toList "80".toList "doorbell".toList⟩ : Worker) ∈
        spawn { Server := "ntfy.sh".toList, Port := "80".toList,
                Topics := ["doorbell".toList], MP3 := "bell.mp3".toList } ∧
      (workerURL "ntfy.sh".toList "80".toList "doorbell".toList).String =
        "ws://ntfy.sh:80/doorbell/ws".toList :=
  ⟨by decide,
    (spawn_worker_url
      { Server := "ntfy.sh".toList, Port := "80".toList, Topics := ["doorbell".toList],
        MP3 := "bell.mp3".toList }
      ⟨"doorbell".toList, workerURL "ntfy.sh".toList "80".toList "doorbell".toList⟩
      (by decide)).2.2.2.2.2 (by decide) (by decide)⟩

/-- C8 (counterexample): with `NTFY_SERVER_URL` set to `a b` and the topic `t`, whose only
character needs no escaping, the worker's URL has the string form `ws://a%20b:80/t/ws`, not
`ws://a b:80/t/ws`. -/
theorem worker_url_string_escapes_server :
    loadConfig (.ok [])
        [("NTFY_SERVER_URL".toList, "a b".toList), ("NTFY_TOPICS".toList, "t".toList),
          ("MP3_FILE".toList, "bell.mp3".toList)] =
        ({ Server := "a b".toList, Port := "80".toList, Topics := ["t".toList],
           MP3 := "bell.mp3".toList }, none) ∧
      (spawn { Server := "a b".toList, Port := "80".toList, Topics := ["t".toList],
               MP3 := "bell.mp3".toList }).map (fun wk => (wk.tp, wk.u.String)) =
        [("t".toList, "ws://a%20b:80/t/ws".toList)] ∧
      (∀ c ∈ "t".toList, needsEscape c .encodePath = false) ∧
      "ws://a%20b:80/t/ws".toList ≠
        "ws://".toList ++ "a b".toList ++ ":".toList ++ "80".toList ++ "/".toList ++ "t".toList ++
          "/ws".toList := by
  decide


/-! ## The reconnect loop: transitions -/

/-- Every transition of `step`, by the line of `connect` that takes it. -/
theorem step_cases {s s' : State} {e : Event} (h : step s e = some s') :
    (e = .cancel ∧ s' = { s with cancelled := true }) ∨
    (e = .check ∧ s.pc = .top ∧ s.cancelled = true ∧
      s' = { s with pc := .returned, log := .ret :: s.log }) ∨
    (e = .check ∧ s.pc = .top ∧ s.cancelled = false ∧
      s' = { s with pc := .dialing, log := .dial :: s.log }) ∨
    (e = .dialed true ∧ s.pc = .dialing ∧
      s' = { s with pc := .waiting, reader := .reading, log := .dialed true :: s.log }) ∨
    (e = .dialed false ∧ s.pc = .dialing ∧
      s' = { s with pc := .backoff, log := .dialed false :: s.log }) ∨
    (e = .timer ∧ s.pc = .backoff ∧
      s' = { s with pc := .top, log := .wait backoffDelay :: s.log }) ∨
    (e = .ctxDone ∧ s.cancelled = true ∧ s.pc = .backoff ∧
      s' = { s with pc := .returned, log := .ret :: s.log }) ∨
    (e = .ctxDone ∧ s.cancelled = true ∧ s.pc = .waiting ∧
      s' = { s with pc := .joining, log := .close .cancel :: s.log }) ∨
    (e = .done ∧ s.reader = .exited ∧ s.pc = .waiting ∧
      s' = { s with pc := .top, log := .close .readerExit :: s.log }) ∨
    (e = .done ∧ s.reader = .exited ∧ s.pc = .joining ∧
      s' = { s with pc := .returned, log := .ret :: s.log }) ∨
    (∃ f, e = .read (some f) ∧ s.reader = .reading ∧
      s' = { s with reader := .playing, log := .recv (some f) :: s.log }) ∨
    (e = .read none ∧ s.reader = .reading ∧
      s' = { s with reader := .exited, log := .recv none :: s.log }) ∨
    (e = .play ∧ s.reader = .playing ∧
      s' = { s with reader := .reading, log := .play :: s.log }) := by
  obtain ⟨pc, reader, cancelled, log⟩ := s
  cases e with
  | cancel => simp [step] at h; simp [h]
  | check =>
    cases pc <;> cases cancelled <;> simp [step] at h <;> simp [h]
  | dialed ok =>
    cases pc <;> cases ok <;> simp [step] at h <;> simp [h]
  | timer => cases pc <;> simp [step] at h <;> simp [h]
  | ctxDone => cases pc <;> cases cancelled <;> simp [step] at h <;> simp [h]
  | done => cases pc <;> cases reader <;> simp [step] at h <;> simp [h]
  | read r => cases reader <;> cases r <;> simp [step] at h <;> simp [h]
  | play => cases reader <;> simp [step] at h <;> simp [h]

/-- A property that holds at the start and is kept by every step holds after every schedule. -/
theorem run_invariant {P : State → Prop}
    (hstep : ∀ s e s', P s → step s e = some s' → P s') :
    ∀ (evs : List Event) (s s' : State), P s → run s evs = some s' → P s' := by
  intro evs
  induction evs with
  | nil =>
    intro s s' hs h
    simp [run] at h
    exact h ▸ hs
  | cons e es ih =>
    intro s s' hs h
    simp only [run] at h
    cases hse : step s e with
    | none => simp [hse] at h
    | some s1 =>
      rw [hse] at h
      exact ih s1 s' (hstep s e s1 hs hse) h


theorem Inv_init : Inv init := by
  simp [Inv, init]

theorem Inv_step (s : State) (e : Event) (s' : State) (hs : Inv s) (h : step s e = some s') :
    Inv s' := by
  obtain ⟨h1, h2, h3, h4⟩ := hs
  rcases step_cases h with ⟨rfl, rfl⟩ | ⟨rfl, hpc, hc, rfl⟩ | ⟨rfl, hpc, hc, rfl⟩ |
    ⟨rfl, hpc, rfl⟩ | ⟨rfl, hpc, rfl⟩ | ⟨rfl, hpc, rfl⟩ | ⟨rfl, hc, hpc, rfl⟩ |
    ⟨rfl, hc, hpc, rfl⟩ | ⟨rfl, hr, hpc, rfl⟩ | ⟨rfl, hr, hpc, rfl⟩ | ⟨f, rfl, hr, rfl⟩ |
    ⟨rfl, hr, rfl⟩ | ⟨rfl, hr, rfl⟩ <;> simp_all [Inv]

theorem Inv_run {evs : List Event} {s : State} (h : run init evs = some s) : Inv s :=
  run_invariant Inv_step evs init s Inv_init h


/-- C5: `connect` has returned only if `ctx` is cancelled; and while `ctx` is not cancelled,
right after a failed dial the only thing that can happen besides a cancellation is that the
timer fires, after which the loop dials again, and right after the reader has exited on a read
error the only thing that can happen besides a cancellation is the receive from `done`, after
which the loop closes the socket and dials again. -/
theorem connect_never_gives_up (evs : List Event) (s : State) (h : run init evs = some s) :
    (s.pc = .returned → s.cancelled = true) ∧
    (s.cancelled = false → s.log.head? = some (.dialed false) →
      (∀ e s', step s e = some s' → e = .cancel ∨ e = .timer) ∧
      run s [.timer, .check] =
        some { s with pc := .dialing, log := .dial :: .wait backoffDelay :: s.log }) ∧
    (s.cancelled = false → s.log.head? = some (.recv none) →
      (∀ e s', step s e = some s' → e = .cancel ∨ e = .done) ∧
      run s [.done, .check] =
        some { s with pc := .dialing, log := .dial :: .close .readerExit :: s.log }) := by
  obtain ⟨h1, h2, h3, h4⟩ := Inv_run h
  refine ⟨fun hpc => h2 (Or.inr hpc), fun hc hd => ?_, fun hc hd => ?_⟩
  · have hpc := h3 hd
    refine ⟨fun e s' hstep => ?_, ?_⟩
    · rcases step_cases hstep with ⟨rfl, rfl⟩ | ⟨rfl, hpc', hc', rfl⟩ | ⟨rfl, hpc', hc', rfl⟩ |
        ⟨rfl, hpc', rfl⟩ | ⟨rfl, hpc', rfl⟩ | ⟨rfl, hpc', rfl⟩ | ⟨rfl, hc', hpc', rfl⟩ |
        ⟨rfl, hc', hpc', rfl⟩ | ⟨rfl, hr, hpc', rfl⟩ | ⟨rfl, hr, hpc', rfl⟩ |
        ⟨f, rfl, hr, rfl⟩ | ⟨rfl, hr, rfl⟩ | ⟨rfl, hr, rfl⟩ <;> simp_all
    · simp [run, step, hpc, hc]
  · obtain ⟨hr, hpc⟩ := h4 hd
    have hpc : s.pc = .waiting := by
      rcases hpc with hpc | hpc
      · exact hpc
      · have := h2 (Or.inl hpc)
        rw [hc] at this
        exact Bool.noConfusion this
    refine ⟨fun e s' hstep => ?_, ?_⟩
    · rcases step_cases hstep with ⟨rfl, rfl⟩ | ⟨rfl, hpc', hc', rfl⟩ | ⟨rfl, hpc', hc', rfl⟩ |
        ⟨rfl, hpc', rfl⟩ | ⟨rfl, hpc', rfl⟩ | ⟨rfl, hpc', rfl⟩ | ⟨rfl, hc', hpc', rfl⟩ |
        ⟨rfl, hc', hpc', rfl⟩ | ⟨rfl, hr', hpc', rfl⟩ | ⟨rfl, hr', hpc', rfl⟩ |
        ⟨f, rfl, hr', rfl⟩ | ⟨rfl, hr', rfl⟩ | ⟨rfl, hr', rfl⟩ <;> simp_all
    · simp [run, step, hpc, hc, hr]

/-- C5 at a failed first dial: the timer and the next check lead to the second dial. -/
theorem connect_never_gives_up_witness :
    run init [.check, .dialed false] =
        some { pc := .backoff, reader := .absent, cancelled := false,
               log := [.dialed false, .dial] } ∧
      run { pc := .backoff, reader := .absent, cancelled := false,
            log := [.dialed false, .dial] } [.timer, .check] =
        some { pc := .dialing, reader := .absent, cancelled := false,
               log := [.dial, .wait backoffDelay, .dialed false, .dial] } :=
  ⟨by decide,
    ((connect_never_gives_up [.check, .dialed false]
      { pc := .backoff, reader := .absent, cancelled := false, log := [.dialed false, .dial] }
      (by decide)).2.1 rfl rfl).2⟩


/-- After the cancellation branch of a select has been taken, `connect` stays at the receive of
line 113 or has returned, and no dial is logged any more. -/
theorem no_dial_after_cancel (n : Nat) (more : List Event) (s s' : State)
    (hs : (s.pc = .joining ∨ s.pc = .returned) ∧ s.log.count .dial = n)
    (h : run s more = some s') :
    (s'.pc = .joining ∨ s'.pc = .returned) ∧ s'.log.count .dial = n := by
  refine run_invariant (P := fun s => (s.pc = .joining ∨ s.pc = .returned) ∧
    s.log.count .dial = n) ?_ more s s' hs h
  intro s e s' hs hstep
  obtain ⟨hpc, hn⟩ := hs
  rcases step_cases hstep with ⟨rfl, rfl⟩ | ⟨rfl, hpc', hc', rfl⟩ | ⟨rfl, hpc', hc', rfl⟩ |
    ⟨rfl, hpc', rfl⟩ | ⟨rfl, hpc', rfl⟩ | ⟨rfl, hpc', rfl⟩ | ⟨rfl, hc', hpc', rfl⟩ |
    ⟨rfl, hc', hpc', rfl⟩ | ⟨rfl, hr', hpc', rfl⟩ | ⟨rfl, hr', hpc', rfl⟩ |
    ⟨f, rfl, hr', rfl⟩ | ⟨rfl, hr', rfl⟩ | ⟨rfl, hr', rfl⟩ <;> simp_all

/-- From the head of the loop with `ctx` cancelled and no reader running, the only action that
is ever logged is the return. -/
theorem only_return_from_cancelled_top (l : List Action) (more : List Event) (s s' : State)
    (hs : s.reader ≠ .reading ∧ s.reader ≠ .playing ∧ s.cancelled = true ∧
      ((s.pc = .top ∧ s.log = l) ∨ (s.pc = .returned ∧ s.log = .ret :: l)))
    (h : run s more = some s') :
    s'.reader ≠ .reading ∧ s'.reader ≠ .playing ∧ s'.cancelled = true ∧
      ((s'.pc = .top ∧ s'.log = l) ∨ (s'.pc = .returned ∧ s'.log = .ret :: l)) := by
  refine run_invariant (P := fun s => s.reader ≠ .reading ∧ s.reader ≠ .playing ∧
    s.cancelled = true ∧ ((s.pc = .top ∧ s.log = l) ∨ (s.pc = .returned ∧ s.log = .ret :: l)))
    ?_ more s s' hs h
  intro s e s' hs hstep
  obtain ⟨hr1, hr2, hc, hpc⟩ := hs
  rcases step_cases hstep with ⟨rfl, rfl⟩ | ⟨rfl, hpc', hc', rfl⟩ | ⟨rfl, hpc', hc', rfl⟩ |
    ⟨rfl, hpc', rfl⟩ | ⟨rfl, hpc', rfl⟩ | ⟨rfl, hpc', rfl⟩ | ⟨rfl, hc', hpc', rfl⟩ |
    ⟨rfl, hc', hpc', rfl⟩ | ⟨rfl, hr', hpc', rfl⟩ | ⟨rfl, hr', hpc', rfl⟩ |
    ⟨f, rfl, hr', rfl⟩ | ⟨rfl, hr', rfl⟩ | ⟨rfl, hr', rfl⟩ <;> simp_all

/-- C6: when `ctx` is cancelled as `connect` stands at the head of its loop, the check of
line 80 returns and nothing but that return is ever logged, so no dial and no `play`; and when
a select takes the case `<-ctx.Done()`, `connect` returns at once from the backoff, or closes
the socket and returns as soon as the reader has exited, and no dial is logged any more. -/
theorem connect_stops_on_cancel (evs : List Event) (s : State) (h : run init evs = some s) :
    (s.pc = .top → s.cancelled = true →
      step s .check = some { s with pc := .returned, log := .ret :: s.log } ∧
      ∀ more s', run s more = some s' → s'.log = s.log ∨ s'.log = .ret :: s.log) ∧
    (∀ s', step s .ctxDone = some s' →
      (s.pc = .backoff ∧ s' = { s with pc := .returned, log := .ret :: s.log } ∨
        s.pc = .waiting ∧ s' = { s with pc := .joining, log := .close .cancel :: s.log }) ∧
      ∀ more s'', run s' more = some s'' →
        s''.log.count .dial = s.log.count .dial ∧
        (s''.pc = .returned ∨
          s''.pc = .joining ∧
            (s''.reader = .exited →
              step s'' .done = some { s'' with pc := .returned, log := .ret :: s''.log }))) := by
  obtain ⟨h1, h2, h3, h4⟩ := Inv_run h
  refine ⟨fun hpc hc => ⟨by simp [step, hpc, hc], fun more s' hrun => ?_⟩, fun s' hstep => ?_⟩
  · have hr1 : s.reader ≠ .reading := fun hr => by
      have := h1 (Or.inl hr); simp [hpc] at this
    have hr2 : s.reader ≠ .playing := fun hr => by
      have := h1 (Or.inr hr); simp [hpc] at this
    have := only_return_from_cancelled_top s.log more s s'
      ⟨hr1, hr2, hc, Or.inl ⟨hpc, rfl⟩⟩ hrun
    rcases this.2.2.2 with h | h
    · exact Or.inl h.2
    · exact Or.inr h.2
  · have hs' : (s.pc = .backoff ∧ s' = { s with pc := .returned, log := .ret :: s.log } ∨
        s.pc = .waiting ∧ s' = { s with pc := .joining, log := .close .cancel :: s.log }) := by
      rcases step_cases hstep with ⟨he, _⟩ | ⟨he, _⟩ | ⟨he, _⟩ | ⟨he, _⟩ | ⟨he, _⟩ | ⟨he, _⟩ |
        ⟨_, _, hpc, hs'⟩ | ⟨_, _, hpc, hs'⟩ | ⟨he, _⟩ | ⟨he, _⟩ | ⟨f, he, _⟩ | ⟨he, _⟩ |
        ⟨he, _⟩
      all_goals first
        | exact Or.inl ⟨hpc, hs'⟩
        | exact Or.inr ⟨hpc, hs'⟩
        | exact Event.noConfusion he
    refine ⟨hs', fun more s'' hrun => ?_⟩
    have hstart : (s'.pc = .joining ∨ s'.pc = .returned) ∧
        s'.log.count .dial = s.log.count .dial := by
      rcases hs' with ⟨_, rfl⟩ | ⟨_, rfl⟩ <;> simp
    have := no_dial_after_cancel _ more s' s'' hstart hrun
    refine ⟨this.2, ?_⟩
    rcases this.1 with hj | hr
    · exact Or.inr ⟨hj, fun hex => by simp [step, hj, hex]⟩
    · exact Or.inl hr

/-- C6 at a cancellation that arrives after the reader has exited: the next check returns. -/
theorem connect_stops_on_cancel_witness :
    run init [.check, .dialed true, .read none, .cancel, .done] =
        some { pc := .top, reader := .exited, cancelled := true,
               log := [.close .readerExit, .recv none, .dialed true, .dial] } ∧
      step { pc := .top, reader := .exited, cancelled := true,
             log := [.close .readerExit, .recv none, .dialed true, .dial] } .check =
        some { pc := .returned, reader := .exited, cancelled := true,
               log := [.ret, .close .readerExit, .recv none, .dialed true, .dial] } :=
  ⟨by decide,
    ((connect_stops_on_cancel [.check, .dialed true, .read none, .cancel, .done]
      { pc := .top, reader := .exited, cancelled := true,
        log := [.close .readerExit, .recv none, .dialed true, .dial] }
      (by decide)).1 rfl rfl).1⟩


/-! ## The socket is closed once -/

theorem sockRun_append (st : Bool) (l : List Action) (a : Action) :
    sockRun st (l ++ [a]) = (sockRun st l).bind fun st' => sockStep st' a := by
  induction l generalizing st with
  | nil => simp [sockRun]
  | cons b l ih =>
    simp only [List.cons_append, sockRun]
    cases sockStep st b with
    | none => rfl
    | some st' => simpa using ih st'

theorem trace_cons (pc : MainPc) (reader : ReaderPc) (cancelled : Bool) (a : Action)
    (log : List Action) :
    State.trace { pc := pc, reader := reader, cancelled := cancelled, log := a :: log } =
      State.trace { pc := pc, reader := reader, cancelled := cancelled, log := log } ++ [a] := by
  simp [State.trace]

theorem sock_step (s : State) (e : Event) (s' : State)
    (hs : sockRun false s.trace = some (decide (s.pc = .waiting)))
    (h : step s e = some s') :
    sockRun false s'.trace = some (decide (s'.pc = .waiting)) := by
  rcases step_cases h with ⟨rfl, rfl⟩ | ⟨rfl, hpc', hc', rfl⟩ | ⟨rfl, hpc', hc', rfl⟩ |
    ⟨rfl, hpc', rfl⟩ | ⟨rfl, hpc', rfl⟩ | ⟨rfl, hpc', rfl⟩ | ⟨rfl, hc', hpc', rfl⟩ |
    ⟨rfl, hc', hpc', rfl⟩ | ⟨rfl, hr', hpc', rfl⟩ | ⟨rfl, hr', hpc', rfl⟩ |
    ⟨f, rfl, hr', rfl⟩ | ⟨rfl, hr', rfl⟩ | ⟨rfl, hr', rfl⟩ <;>
  simp_all [State.trace, sockRun_append, sockStep]

/-- C9: along every run the socket is handled in order: each socket that a dial opens is
closed by exactly one `Close`, of the cancellation branch or of the reader-exit branch, before
`connect` dials again or returns, and `Close` is never called without an open socket; a socket
is open exactly while `connect` stands at the select of line 110. A step of the reader
goroutine logs a read or a `play`, never a `Close`, and leaves `connect` where it is. -/
theorem socket_closed_once (evs : List Event) (s : State) (h : run init evs = some s) :
    sockRun false s.trace = some (decide (s.pc = .waiting)) ∧
    (∀ e s', (e = .play ∨ ∃ r, e = .read r) → step s e = some s' →
      s'.pc = s.pc ∧ ∃ a, s'.log = a :: s.log ∧ isReaderAction a = true) := by
  refine ⟨run_invariant
    (P := fun s => sockRun false s.trace = some (decide (s.pc = .waiting)))
    sock_step evs init s (by decide) h, fun e s' he hstep => ?_⟩
  rcases step_cases hstep with ⟨rfl, rfl⟩ | ⟨rfl, hpc', hc', rfl⟩ | ⟨rfl, hpc', hc', rfl⟩ |
    ⟨rfl, hpc', rfl⟩ | ⟨rfl, hpc', rfl⟩ | ⟨rfl, hpc', rfl⟩ | ⟨rfl, hc', hpc', rfl⟩ |
    ⟨rfl, hc', hpc', rfl⟩ | ⟨rfl, hr', hpc', rfl⟩ | ⟨rfl, hr', hpc', rfl⟩ |
    ⟨f, rfl, hr', rfl⟩ | ⟨rfl, hr', rfl⟩ | ⟨rfl, hr', rfl⟩ <;>
  simp_all [isReaderAction]

/-- C9 at a run with one socket closed by the reader-exit branch and one by the cancellation
branch. -/
theorem socket_closed_once_witness :
    (run init [.check, .dialed true, .read none, .done, .check, .dialed true, .cancel,
        .ctxDone, .read none, .done]).map State.trace =
      some [.dial, .dialed true, .recv none, .close .readerExit, .dial, .dialed true,
        .close .cancel, .recv none, .ret] ∧
    sockRun false [.dial, .dialed true, .recv none, .close .readerExit, .dial, .dialed true,
        .close .cancel, .recv none, .ret] = some false :=
  ⟨by decide,
    (socket_closed_once [.check, .dialed true, .read none, .done, .check, .dialed true, .cancel,
        .ctxDone, .read none, .done]
      { pc := .returned, reader := .exited, cancelled := true,
        log := [.ret, .recv none, .close .cancel, .dialed true, .dial, .close .readerExit,
          .recv none, .dialed true, .dial] } (by decide)).1⟩


/-! ## The reader plays once per frame -/

theorem readThenPlay_append (frames : List Frame) (f : Frame) :
    readThenPlay frames ++ [.recv (some f), .play] = readThenPlay (frames ++ [f]) := by
  simp [readThenPlay, List.flatMap_append]

theorem reader_step (s : State) (e : Event) (s' : State)
    (hs : ReaderShape s.reader (readerTrace s)) (h : step s e = some s') :
    ReaderShape s'.reader (readerTrace s') := by
  obtain ⟨frames, hs⟩ := hs
  rcases step_cases h with ⟨rfl, rfl⟩ | ⟨rfl, hpc', hc', rfl⟩ | ⟨rfl, hpc', hc', rfl⟩ |
    ⟨rfl, hpc', rfl⟩ | ⟨rfl, hpc', rfl⟩ | ⟨rfl, hpc', rfl⟩ | ⟨rfl, hc', hpc', rfl⟩ |
    ⟨rfl, hc', hpc', rfl⟩ | ⟨rfl, hr', hpc', rfl⟩ | ⟨rfl, hr', hpc', rfl⟩ |
    ⟨f, rfl, hr', rfl⟩ | ⟨rfl, hr', rfl⟩ | ⟨rfl, hr', rfl⟩
  · exact ⟨frames, hs⟩
  · exact ⟨frames, by simpa [readerTrace, isReaderAction] using hs⟩
  · exact ⟨frames, by simpa [readerTrace, isReaderAction] using hs⟩
  · exact ⟨[], Or.inr (Or.inl ⟨rfl, by simp [readerTrace, readThenPlay]⟩)⟩
  · exact ⟨frames, by simpa [readerTrace, isReaderAction] using hs⟩
  · exact ⟨frames, by simpa [readerTrace, isReaderAction] using hs⟩
  · exact ⟨frames, by simpa [readerTrace, isReaderAction] using hs⟩
  · exact ⟨frames, by simpa [readerTrace, isReaderAction] using hs⟩
  · exact ⟨frames, by simpa [readerTrace, isReaderAction] using hs⟩
  · exact ⟨frames, by simpa [readerTrace, isReaderAction] using hs⟩
  · rcases hs with ⟨hr, _⟩ | ⟨_, ht⟩ | ⟨g, hr, _⟩ | ⟨hr, _⟩
    · rw [hr'] at hr; exact ReaderPc.noConfusion hr
    · refine ⟨frames, Or.inr (Or.inr (Or.inl ⟨f, rfl, ?_⟩))⟩
      rw [← ht]
      simp [readerTrace, isReaderAction]
    · rw [hr'] at hr; exact ReaderPc.noConfusion hr
    · rw [hr'] at hr; exact ReaderPc.noConfusion hr
  · rcases hs with ⟨hr, _⟩ | ⟨_, ht⟩ | ⟨g, hr, _⟩ | ⟨hr, _⟩
    · rw [hr'] at hr; exact ReaderPc.noConfusion hr
    · refine ⟨frames, Or.inr (Or.inr (Or.inr ⟨rfl, ?_⟩))⟩
      rw [← ht]
      simp [readerTrace, isReaderAction]
    · rw [hr'] at hr; exact ReaderPc.noConfusion hr
    · rw [hr'] at hr; exact ReaderPc.noConfusion hr
  · rcases hs with ⟨hr, _⟩ | ⟨hr, _⟩ | ⟨g, _, ht⟩ | ⟨hr, _⟩
    · rw [hr'] at hr; exact ReaderPc.noConfusion hr
    · rw [hr'] at hr; exact ReaderPc.noConfusion hr
    · refine ⟨frames ++ [g], Or.inr (Or.inl ⟨rfl, ?_⟩)⟩
      rw [← readThenPlay_append]
      have : readerTrace { s with reader := .reading, log := .play :: s.log } =
          readerTrace s ++ [.play] := by
        simp [readerTrace, isReaderAction]
      rw [this, ht]
      simp
    · rw [hr'] at hr; exact ReaderPc.noConfusion hr

/-- C4: within one connection the reader calls `play` exactly once after each frame that
`ReadMessage` returns, whatever its type and payload, in the order of arrival, and never at or
after the first read error. While the reader waits in `ReadMessage`, every frame can be read
and takes it to the call of `play`, and a read error takes it to its exit; once a frame is
read the only step of the reader is that call of `play`, and `connect` stays at line 110 or 113
until then; once the reader has exited it takes no step. So the reader's trace is the pairs
frame, `play`, then the frame just read while it is about to play, or the read error once it
has exited. -/
theorem reader_plays_each_frame (evs : List Event) (s : State) (h : run init evs = some s) :
    (∃ frames : List Frame,
      (s.reader = .absent ∧ readerTrace s = []) ∨
      (s.reader = .reading ∧ readerTrace s = readThenPlay frames) ∨
      (∃ f, s.reader = .playing ∧ readerTrace s = readThenPlay frames ++ [.recv (some f)]) ∨
      (s.reader = .exited ∧ readerTrace s = readThenPlay frames ++ [.recv none])) ∧
    (s.reader = .reading →
      (∀ f : Frame, step s (.read (some f)) =
        some { s with reader := .playing, log := .recv (some f) :: s.log }) ∧
      step s (.read none) = some { s with reader := .exited, log := .recv none :: s.log } ∧
      step s .play = none) ∧
    (s.reader = .playing →
      step s .play = some { s with reader := .reading, log := .play :: s.log } ∧
      (∀ r, step s (.read r) = none) ∧ step s .done = none ∧
      (s.pc = .waiting ∨ s.pc = .joining)) ∧
    (s.reader = .exited → step s .play = none ∧ ∀ r, step s (.read r) = none) := by
  refine ⟨run_invariant (P := fun s => ReaderShape s.reader (readerTrace s)) reader_step evs
    init s ⟨[], Or.inl ⟨rfl, rfl⟩⟩ h, fun hr => ?_, fun hr => ?_, fun hr => ?_⟩
  · exact ⟨fun f => by simp [step, hr], by simp [step, hr], by simp [step, hr]⟩
  · exact ⟨by simp [step, hr], fun r => by simp [step, hr], by simp [step, hr],
      (Inv_run h).1 (Or.inr hr)⟩
  · exact ⟨by simp [step, hr], fun r => by simp [step, hr]⟩

/-- C4 at a connection that delivers two frames and then fails: after the second frame the
reader can only play, and at the end its trace is frame, `play`, frame, `play`, error. -/
theorem reader_plays_each_frame_witness :
    run init [.check, .dialed true, .read (some ⟨1, [104, 105]⟩), .play, .read (some ⟨2, []⟩)] =
      some { pc := .waiting, reader := .playing, cancelled := false,
             log := [.recv (some ⟨2, []⟩), .play, .recv (some ⟨1, [104, 105]⟩), .dialed true,
               .dial] } ∧
    step { pc := .waiting, reader := .playing, cancelled := false,
           log := [.recv (some ⟨2, []⟩), .play, .recv (some ⟨1, [104, 105]⟩), .dialed true,
             .dial] } .play =
      some { pc := .waiting, reader := .reading, cancelled := false,
             log := [.play, .recv (some ⟨2, []⟩), .play, .recv (some ⟨1, [104, 105]⟩),
               .dialed true, .dial] } ∧
    readerTrace { pc := .waiting, reader := .exited, cancelled := false,
                  log := [.recv none, .play, .recv (some ⟨2, []⟩), .play,
                    .recv (some ⟨1, [104, 105]⟩), .dialed true, .dial] } =
      [.recv (some ⟨1, [104, 105]⟩), .play, .recv (some ⟨2, []⟩), .play, .recv none] ∧
    ∃ frames : List Frame,
      readerTrace { pc := .waiting, reader := .exited, cancelled := false,
                    log := [.recv none, .play, .recv (some ⟨2, []⟩), .play,
                      .recv (some ⟨1, [104, 105]⟩), .dialed true, .dial] } =
        readThenPlay frames ++ [.recv none] := by
  refine ⟨by decide, ?_, by decide, ?_⟩
  · exact ((reader_plays_each_frame
      [.check, .dialed true, .read (some ⟨1, [104, 105]⟩), .play, .read (some ⟨2, []⟩)]
      { pc := .waiting, reader := .playing, cancelled := false,
        log := [.recv (some ⟨2, []⟩), .play, .recv (some ⟨1, [104, 105]⟩), .dialed true,
          .dial] } (by decide)).2.2.1 rfl).1
  · obtain ⟨frames, hf⟩ := (reader_plays_each_frame
      [.check, .dialed true, .read (some ⟨1, [104, 105]⟩), .play, .read (some ⟨2, []⟩), .play,
        .read none]
      { pc := .waiting, reader := .exited, cancelled := false,
        log := [.recv none, .play, .recv (some ⟨2, []⟩), .play,
          .recv (some ⟨1, [104, 105]⟩), .dialed true, .dial] } (by decide)).1
    rcases hf with ⟨hr, _⟩ | ⟨hr, _⟩ | ⟨f, hr, _⟩ | ⟨_, ht⟩
    · exact ReaderPc.noConfusion hr
    · exact ReaderPc.noConfusion hr
    · exact ReaderPc.noConfusion hr
    · exact ⟨frames, ht⟩

/-! ## The wait between two dials -/

theorem waited_append (l m : List Action) : waited (l ++ m) = waited l + waited m := by
  induction l with
  | nil => simp [waited]
  | cons a l ih => cases a <;> simp [waited, ih, Nat.add_assoc]

theorem waited_reverse (l : List Action) : waited l.reverse = waited l := by
  induction l with
  | nil => rfl
  | cons a l ih =>
    rw [List.reverse_cons, waited_append, ih]
    cases a <;> simp [waited, Nat.add_comm]

theorem sinceDial_cons_dial (log : List Action) : sinceDial (.dial :: log) = [] := by
  simp [sinceDial, List.takeWhile]

theorem sinceDial_cons_ne {a : Action} (ha : a ≠ .dial) (log : List Action) :
    sinceDial (a :: log) = a :: sinceDial log := by
  simp [sinceDial, List.takeWhile, ha]

theorem sinceDial_append {mid : List Action} (h : Action.dial ∉ mid) (older : List Action) :
    sinceDial (mid ++ .dial :: older) = mid := by
  induction mid with
  | nil => exact sinceDial_cons_dial older
  | cons a mid ih =>
    have ha : a ≠ .dial := fun e => h (e ▸ List.mem_cons_self _ _)
    have hm : Action.dial ∉ mid := fun e => h (List.mem_cons_of_mem _ e)
    rw [List.cons_append, sinceDial_cons_ne ha, ih hm]

theorem Spaced_of_append (newer l : List Action) (h : Spaced (newer ++ l)) : Spaced l := by
  induction newer with
  | nil => exact h
  | cons a newer ih => exact ih h.2

theorem GapAt_cons_reader {a : Action} (ha : isReaderAction a = true) (pc : MainPc)
    (log : List Action) (h : GapAt pc (sinceDial log)) : GapAt pc (sinceDial (a :: log)) := by
  have hne : a ≠ .dial := by
    rintro rfl
    exact Bool.noConfusion ha
  rw [sinceDial_cons_ne hne]
  cases a <;> first
    | exact Bool.noConfusion ha
    | (cases pc <;> simp only [GapAt, GapOk] at * <;> simpa [waited] using h)

theorem gap_step (s : State) (e : Event) (s' : State)
    (hs : Spaced s.log ∧ GapAt s.pc (sinceDial s.log)) (h : step s e = some s') :
    Spaced s'.log ∧ GapAt s'.pc (sinceDial s'.log) := by
  obtain ⟨pc, reader, cancelled, log⟩ := s
  obtain ⟨hsp, hgap⟩ := hs
  rcases step_cases h with ⟨rfl, rfl⟩ | ⟨rfl, hpc', hc', rfl⟩ | ⟨rfl, hpc', hc', rfl⟩ |
    ⟨rfl, hpc', rfl⟩ | ⟨rfl, hpc', rfl⟩ | ⟨rfl, hpc', rfl⟩ | ⟨rfl, hc', hpc', rfl⟩ |
    ⟨rfl, hc', hpc', rfl⟩ | ⟨rfl, hr', hpc', rfl⟩ | ⟨rfl, hr', hpc', rfl⟩ |
    ⟨f, rfl, hr', rfl⟩ | ⟨rfl, hr', rfl⟩ | ⟨rfl, hr', rfl⟩
  · exact ⟨hsp, hgap⟩
  · exact ⟨⟨fun e => Action.noConfusion e, hsp⟩, trivial⟩
  · simp only at hpc'
    subst hpc'
    refine ⟨⟨fun _ => hgap, hsp⟩, ?_⟩
    simp only [sinceDial_cons_dial, GapAt]
    simp
  · simp only at hpc'
    subst hpc'
    refine ⟨⟨fun e => Action.noConfusion e, hsp⟩, ?_⟩
    simp only [sinceDial_cons_ne (show Action.dialed true ≠ .dial by decide), GapAt] at hgap ⊢
    simpa using hgap
  · exact ⟨⟨fun e => Action.noConfusion e, hsp⟩, trivial⟩
  · simp only at hpc'
    subst hpc'
    refine ⟨⟨fun e => Action.noConfusion e, hsp⟩, ?_⟩
    simp only [sinceDial_cons_ne (show Action.wait backoffDelay ≠ .dial by decide), GapAt,
      GapOk]
    intro _
    simp [waited]
  · exact ⟨⟨fun e => Action.noConfusion e, hsp⟩, trivial⟩
  · simp only at hpc'
    subst hpc'
    refine ⟨⟨fun e => Action.noConfusion e, hsp⟩, ?_⟩
    simp only [sinceDial_cons_ne (show Action.close .cancel ≠ .dial by decide), GapAt] at hgap ⊢
    simpa using hgap
  · simp only at hpc'
    subst hpc'
    refine ⟨⟨fun e => Action.noConfusion e, hsp⟩, ?_⟩
    simp only [sinceDial_cons_ne (show Action.close .readerExit ≠ .dial by decide), GapAt,
      GapOk] at hgap ⊢
    intro hm
    have : Action.dialed false ∈ sinceDial log := by simpa using hm
    exact absurd this hgap
  · exact ⟨⟨fun e => Action.noConfusion e, hsp⟩, trivial⟩
  · exact ⟨⟨fun e => Action.noConfusion e, hsp⟩,
      GapAt_cons_reader (a := .recv (some f)) rfl _ _ hgap⟩
  · exact ⟨⟨fun e => Action.noConfusion e, hsp⟩,
      GapAt_cons_reader (a := .recv none) rfl _ _ hgap⟩
  · exact ⟨⟨fun e => Action.noConfusion e, hsp⟩, GapAt_cons_reader (a := .play) rfl _ _ hgap⟩

theorem gap_of_log {s : State} (hs : Spaced s.log) {newer mid older : List Action}
    (hl : s.log = newer ++ .dial :: (mid ++ .dial :: older)) (hmid : Action.dial ∉ mid) :
    GapOk mid := by
  rw [hl] at hs
  have := (Spaced_of_append newer _ hs).1 rfl
  rwa [sinceDial_append hmid] at this

/-- The dial-failure path of the loop (lines 85-92): between two consecutive dials of a run of
which the first failed, the timer waits add up to 5 seconds or more. -/
theorem redial_after_failed_dial_waits (evs : List Event) (s : State)
    (h : run init evs = some s) (pre mid post : List Action)
    (ht : s.trace = pre ++ .dial :: (mid ++ .dial :: post)) (hmid : Action.dial ∉ mid)
    (hfail : .dialed false ∈ mid) : 5 * Second ≤ waited mid := by
  have hinv := run_invariant (P := fun s => Spaced s.log ∧ GapAt s.pc (sinceDial s.log))
    gap_step evs init s ⟨trivial, by simp [init, GapAt, GapOk, sinceDial]⟩ h
  have hl : s.log = post.reverse ++ .dial :: (mid.reverse ++ .dial :: pre.reverse) := by
    have := congrArg List.reverse ht
    simpa [State.trace] using this
  have hg := gap_of_log hinv.1 hl (by simpa using hmid)
  unfold GapOk at hg
  simpa [waited_reverse, backoffDelay] using hg (by simpa using hfail)

/-- The dial-failure path at a failed dial followed by the backoff and the second dial. -/
theorem redial_after_failed_dial_waits_example :
    (run init [.check, .dialed false, .timer, .check]).map State.trace =
      some ([] ++ .dial :: ([.dialed false, .wait backoffDelay] ++ .dial :: [])) ∧
    5 * Second ≤ waited [.dialed false, .wait backoffDelay] :=
  ⟨by decide,
    redial_after_failed_dial_waits [.check, .dialed false, .timer, .check]
      { pc := .dialing, reader := .absent, cancelled := false,
        log := [.dial, .wait backoffDelay, .dialed false, .dial] } (by decide)
      [] [.dialed false, .wait backoffDelay] [] (by decide) (by decide) (by decide)⟩

/-- C1 (the code at the failing input): a dial succeeds, the first read fails, and `connect`
closes the socket and dials again; `ctx` is never cancelled, the two dials are consecutive, and
no timer wait lies between them, so less than 5 seconds of waiting separate them. -/
theorem redial_after_read_error_without_wait :
    run init [.check, .dialed true, .read none, .done, .check] =
      some { pc := .dialing, reader := .exited, cancelled := false,
             log := [.dial, .close .readerExit, .recv none, .dialed true, .dial] } ∧
    State.trace { pc := .dialing, reader := .exited, cancelled := false,
                  log := [.dial, .close .readerExit, .recv none, .dialed true, .dial] } =
      [] ++ .dial :: ([.dialed true, .recv none, .close .readerExit] ++ .dial :: []) ∧
    Action.dial ∉ [Action.dialed true, .recv none, .close .readerExit] ∧
    waited [.dialed true, .recv none, .close .readerExit] = 0 ∧
    ¬ 5 * Second ≤ waited [.dialed true, .recv none, .close .readerExit] := by
  decide

end NtfyHey
